import Mathlib

/-!
# Verification of the environment/project subsystem of copartit/unleash

Shallow embedding of the environment lifecycle, ordering and project-link
contract described in the repository's design spec, together with two
frontend helpers (`useUiFlag`, `milestoneNameChanged`) taken directly from
the source.  The backing `EnvironmentService` implementation is not part of
the provided sources (only its HTTP controller is), so its operations are
modelled from the spec, as noted in each doc comment.
-/

namespace Unleash

/-- An environment record.  Fields follow the spec's data model:
`name` (unique identifier), `enabled` (global switch), `sortOrder`
(ordering key), `type` (opaque classification tag). -/
structure Environment where
  name : String
  enabled : Bool
  sortOrder : Int
  envType : String
deriving Repr, DecidableEq

/-- A project-environment link row: `projectId`, `environmentName`,
`enabledForProject`, per the spec's `ProjectEnvironment` entity. -/
structure ProjectEnvironment where
  projectId : String
  environmentName : String
  enabledForProject : Bool
deriving Repr, DecidableEq

/-- The durable store state: environments plus project links. -/
structure Store where
  environments : List Environment
  projectLinks : List ProjectEnvironment
deriving Repr, DecidableEq

/-- Error taxonomy of the spec: NotFound, Conflict, PreconditionFailed,
ValidationError. -/
inductive EnvError where
  | NotFound
  | Conflict
  | PreconditionFailed
  | ValidationError
deriving Repr, DecidableEq

/-- Look up an environment by name. -/
def findEnv (s : Store) (name : String) : Option Environment :=
  s.environments.find? (fun e => e.name = name)

/-- Whether an environment with the given name exists in the store. -/
def envExists (s : Store) (name : String) : Bool :=
  s.environments.any (fun e => e.name = name)

/-- The ordering used for environment listings: `sortOrder` ascending,
ties broken by `name` ascending (lexicographic). -/
def envLe (a b : Environment) : Prop :=
  a.sortOrder < b.sortOrder ∨ (a.sortOrder = b.sortOrder ∧ a.name ≤ b.name)

instance : DecidableRel envLe := fun a b => by
  unfold envLe; infer_instance

instance : IsTotal Environment envLe := by
  constructor
  intro a b
  rcases lt_trichotomy a.sortOrder b.sortOrder with h | h | h
  · exact Or.inl (Or.inl h)
  · rcases le_total a.name b.name with hn | hn
    · exact Or.inl (Or.inr ⟨h, hn⟩)
    · exact Or.inr (Or.inr ⟨h.symm, hn⟩)
  · exact Or.inr (Or.inl h)

instance : IsTrans Environment envLe := by
  constructor
  intro a b c hab hbc
  rcases hab with h1 | ⟨h1, h1n⟩
  · rcases hbc with h2 | ⟨h2, _⟩
    · exact Or.inl (h1.trans h2)
    · exact Or.inl (h2 ▸ h1)
  · rcases hbc with h2 | ⟨h2, h2n⟩
    · exact Or.inl (h1 ▸ h2)
    · exact Or.inr ⟨h1.trans h2, h1n.trans h2n⟩

/-- Modelled from the spec: `getAll()` of the missing
`EnvironmentService` — "produces an ordered sequence of all environments
sorted by `sortOrder` ascending, ties broken by `name`". -/
def getAll (s : Store) : List Environment :=
  s.environments.insertionSort envLe

/-- Modelled from the spec: `get(name)` of the missing
`EnvironmentService` — "fails with `NotFoundError` if absent". -/
def getEnv (s : Store) (name : String) : Except EnvError Environment :=
  match findEnv s name with
  | some e => .ok e
  | none => .error .NotFound

/-- Modelled from the spec: `createEnvironment(spec)` of the missing
`EnvironmentService` — "inputs a name, type, optional sort order.  Fails
with `ConflictError` if name already exists.  Returns the created
Environment with `enabled=false` by default", plus the spec's
`ValidationError` for malformed input (an empty name). -/
def createEnvironment (s : Store) (name envType : String) (sortOrder : Int) :
    Except EnvError (Environment × Store) :=
  if envExists s name then .error .Conflict
  else if name = "" then .error .ValidationError
  else
    let env : Environment := ⟨name, false, sortOrder, envType⟩
    .ok (env, { s with environments := s.environments ++ [env] })

/-- Modelled from the spec: `validateName(candidateName)` of the missing
`EnvironmentService` — "returns whether a name is free to use; does not
mutate state" (pure function of the store, so no state output). -/
def validateName (s : Store) (name : String) : Bool :=
  !envExists s name

/-- Modelled from the spec: `toggleEnvironment(name, enabled)` of the
missing `EnvironmentService` — "sets the global `enabled` flag", failing
with `NotFound` if the name is absent; disabling cascades at read time
only (see `getProjectEnvironments`), no link row is mutated. -/
def toggleEnvironment (s : Store) (name : String) (enabled : Bool) :
    Except EnvError Store :=
  if envExists s name then
    .ok { s with environments := s.environments.map (fun e =>
      if e.name = name then { e with enabled := enabled } else e) }
  else .error .NotFound

/-- Modelled from the spec: `updateSortOrder(orderMap)` of the missing
`EnvironmentService` — "inputs a mapping from environment name to new
integer sort order for a subset of environments; environments not
mentioned keep their existing order.  Fails with `NotFoundError` if any
named environment does not exist.  This must be atomic: either all listed
updates apply or none do". -/
def updateSortOrder (s : Store) (orderMap : List (String × Int)) :
    Except EnvError Store :=
  if orderMap.all (fun p => envExists s p.1) then
    .ok { s with environments := s.environments.map (fun e =>
      match orderMap.find? (fun p => p.1 = e.name) with
      | some p => { e with sortOrder := p.2 }
      | none => e) }
  else .error .NotFound

/-- Modelled from the spec: `deleteEnvironment(name)` of the missing
`EnvironmentService` — "fails with `NotFoundError` if absent; fails with
`ConflictError` if environment is still referenced by any project link or
is the last remaining enabled environment". -/
def deleteEnvironment (s : Store) (name : String) : Except EnvError Store :=
  match findEnv s name with
  | none => .error .NotFound
  | some e =>
    if s.projectLinks.any (fun l => l.environmentName = name) then
      .error .Conflict
    else if e.enabled && s.environments.all (fun e' =>
        e'.name = name || !e'.enabled) then
      .error .Conflict
    else .ok { s with environments :=
      s.environments.filter (fun e' => e'.name ≠ name) }

/-- Modelled from the spec: `getProjectEnvironments(projectId)` of the
missing link service — "produces the ordered sequence of Environments
currently available (globally enabled AND project-enabled) for a project,
same ordering rule as `getAll`"; the global-enabled cascade is a
read-time (join-time) filter per the spec's design notes. -/
def getProjectEnvironments (s : Store) (projectId : String) :
    List Environment :=
  (s.environments.insertionSort envLe).filter (fun e =>
    e.enabled && s.projectLinks.any (fun l =>
      l.projectId = projectId && l.environmentName = e.name &&
        l.enabledForProject))

/-- Modelled from the spec: enabling an environment for a project (missing
link service) — "must first verify the environment is globally enabled;
if not, the operation fails with a `PreconditionFailed` kind"; on success
the link row for the pair is (re)written as enabled. -/
def enableProjectEnvironment (s : Store) (projectId envName : String) :
    Except EnvError Store :=
  match findEnv s envName with
  | none => .error .NotFound
  | some e =>
    if e.enabled then
      .ok { s with projectLinks :=
        s.projectLinks.filter (fun l =>
          !(l.projectId = projectId && l.environmentName = envName)) ++
          [⟨projectId, envName, true⟩] }
    else .error .PreconditionFailed

end Unleash

namespace UiFlag

/-- The relevant shape of `uiConfig` for `useUiFlag`: an optional `flags`
association of flag name to configured boolean value (`none` models an
absent `flags` object, a missing key models an unconfigured flag). -/
structure UiConfig where
  flags : Option (List (String × Bool))
deriving Repr, DecidableEq

/-- JavaScript `x || false` over an optional boolean: the value when
present (truthy or not, a boolean is returned unchanged when `true`,
and `false` falls through to `false`), `false` when undefined. -/
def orFalse (x : Option Bool) : Bool :=
  match x with
  | some v => v
  | none => false

/-- Embedding of `useUiFlag` (src/unnamed/part_001):
`if (flag === 'EEA') return true; return uiConfig?.flags?.[flag] || false;`
`uiConfig` itself may be absent (optional chaining), modelled as `Option`. -/
def useUiFlag (uiConfig : Option UiConfig) (flag : String) : Bool :=
  if flag = "EEA" then true
  else orFalse ((uiConfig.bind (fun c => c.flags)).bind (fun fs => fs.lookup flag))

end UiFlag

namespace MilestoneList

/-- A release-plan milestone payload.  The `IReleasePlanMilestonePayload`
interface lives outside the provided sources; it carries `name`,
`sortOrder` (both used in MilestoneList.tsx) and further payload fields,
represented here by `strategies`. -/
structure Milestone where
  name : String
  sortOrder : Int
  strategies : List String
deriving Repr, DecidableEq

/-- Embedding of `milestoneNameChanged` from
src/frontend/src/component/releases/ReleasePlanTemplate/MilestoneList.tsx:
`prev.map((milestone, i) => i === index ? { ...milestone, name } : milestone)`. -/
def milestoneNameChanged (index : Nat) (name : String)
    (prev : List Milestone) : List Milestone :=
  prev.mapIdx (fun i m => if i = index then { m with name := name } else m)

end MilestoneList

namespace Unleash

theorem envExists_false_iff (s : Store) (n : String) :
    envExists s n = false ↔ findEnv s n = none := by
  simp [envExists, findEnv, List.any_eq_false, List.find?_eq_none]

theorem envExists_true_iff (s : Store) (n : String) :
    envExists s n = true ↔ ∃ e ∈ s.environments, e.name = n := by
  simp [envExists]

/-- Claim C8: `validateName` returns `true` exactly when no environment
with that name exists.  It is a pure function of the store (its type
`Store → String → Bool` returns no store), so it cannot mutate state. -/
theorem validateName_spec (s : Store) (name : String) :
    validateName s name = true ↔ findEnv s name = none := by
  rw [validateName, Bool.not_eq_true', envExists_false_iff]

/-- Claim C5: for every valid (nonempty) name not already in the store,
`createEnvironment` succeeds and a subsequent `getEnv` on that name
returns an environment whose `enabled` field is `false`. -/
theorem createEnvironment_then_get (s : Store) (name ty : String) (so : Int)
    (hvalid : name ≠ "") (hfree : findEnv s name = none) :
    ∃ e s', createEnvironment s name ty so = .ok (e, s') ∧
      getEnv s' name = .ok e ∧ e.enabled = false := by
  have hex : envExists s name = false := (envExists_false_iff s name).mpr hfree
  have hfree' : s.environments.find? (fun e => e.name = name) = none := hfree
  refine ⟨⟨name, false, so, ty⟩,
    { s with environments := s.environments ++ [⟨name, false, so, ty⟩] },
    ?_, ?_, rfl⟩
  · simp [createEnvironment, hex, hvalid]
  · simp [getEnv, findEnv, List.find?_append, hfree']

end Unleash

namespace Unleash

/-- Closed instance of `createEnvironment_then_get` on an empty store. -/
theorem createEnvironment_then_get_witness :
    ∃ e s', createEnvironment ⟨[], []⟩ "staging" "development" 0 = .ok (e, s') ∧
      getEnv s' "staging" = .ok e ∧ e.enabled = false :=
  createEnvironment_then_get ⟨[], []⟩ "staging" "development" 0 (by decide) rfl

/-- Claim C6: when an environment with the given name already exists,
`createEnvironment` fails with `Conflict`; no new state is produced
(the result carries no store), and the existing environment is intact
and retrievable via `getEnv`. -/
theorem createEnvironment_conflict (s : Store) (name ty : String) (so : Int)
    (e : Environment) (h : findEnv s name = some e) :
    createEnvironment s name ty so = .error .Conflict ∧
      getEnv s name = .ok e := by
  have hex : envExists s name = true := by
    rcases Bool.eq_false_or_eq_true (envExists s name) with ht | hf
    · exact ht
    · rw [envExists_false_iff] at hf
      rw [hf] at h
      cases h
  exact ⟨by simp [createEnvironment, hex], by simp [getEnv, h]⟩

/-- Closed instance of `createEnvironment_conflict`: a second creation of
`staging` fails with Conflict and the first row is intact. -/
theorem createEnvironment_conflict_witness :
    createEnvironment ⟨[⟨"staging", false, 0, "development"⟩], []⟩
        "staging" "production" 7 = .error .Conflict ∧
      getEnv ⟨[⟨"staging", false, 0, "development"⟩], []⟩ "staging" =
        .ok ⟨"staging", false, 0, "development"⟩ :=
  createEnvironment_conflict ⟨[⟨"staging", false, 0, "development"⟩], []⟩
    "staging" "production" 7 ⟨"staging", false, 0, "development"⟩ rfl

/-- Claim C4: enabling an environment for a project fails with
`PreconditionFailed` when the environment's global `enabled` flag is
false (no new state is produced, so the state is unchanged), and
succeeds only when the environment is globally enabled. -/
theorem enableProjectEnvironment_spec (s : Store) (pid ename : String) :
    (∀ e, findEnv s ename = some e → e.enabled = false →
      enableProjectEnvironment s pid ename = .error .PreconditionFailed) ∧
    (∀ s', enableProjectEnvironment s pid ename = .ok s' →
      ∃ e, findEnv s ename = some e ∧ e.enabled = true) := by
  constructor
  · intro e he henabled
    simp [enableProjectEnvironment, he, henabled]
  · intro s' h
    unfold enableProjectEnvironment at h
    cases hfe : findEnv s ename with
    | none => rw [hfe] at h; cases h
    | some e =>
      rw [hfe] at h
      by_cases hen : e.enabled
      · exact ⟨e, rfl, hen⟩
      · simp [hen] at h

/-- Closed instance of `enableProjectEnvironment_spec`: enabling a
globally-disabled environment for a project fails with
PreconditionFailed. -/
theorem enableProjectEnvironment_spec_witness :
    enableProjectEnvironment ⟨[⟨"dev", false, 0, "development"⟩], []⟩
      "p1" "dev" = .error .PreconditionFailed :=
  (enableProjectEnvironment_spec ⟨[⟨"dev", false, 0, "development"⟩], []⟩
    "p1" "dev").1 ⟨"dev", false, 0, "development"⟩ rfl rfl

end Unleash

namespace Unleash

/-- Claim C1: `updateSortOrder` is atomic.  If any name in the order map
does not exist, the whole call fails with `NotFound` (producing no new
state, so no environment's sort order changes); on success the project
links and every environment whose name is not in the map are unchanged,
position by position. -/
theorem updateSortOrder_atomic (s : Store) (m : List (String × Int)) :
    ((∃ p ∈ m, findEnv s p.1 = none) →
      updateSortOrder s m = .error .NotFound) ∧
    (∀ s', updateSortOrder s m = .ok s' →
      s'.projectLinks = s.projectLinks ∧
      s'.environments.length = s.environments.length ∧
      ∀ i (h : i < s.environments.length)
        (h' : i < s'.environments.length),
        (∀ p ∈ m, p.1 ≠ s.environments[i].name) →
        s'.environments[i] = s.environments[i]) := by
  constructor
  · rintro ⟨p, hp, hnone⟩
    have hne : envExists s p.1 = false := (envExists_false_iff s p.1).mpr hnone
    have hall : (m.all (fun q => envExists s q.1)) = false := by
      rw [List.all_eq_false]
      exact ⟨p, hp, by simp [hne]⟩
    simp [updateSortOrder, hall]
  · intro s' h
    unfold updateSortOrder at h
    by_cases hall : (m.all (fun q => envExists s q.1)) = true
    · rw [if_pos hall] at h
      injection h with h
      subst h
      refine ⟨rfl, by simp, ?_⟩
      intro i hi hi' hnotin
      have hfind : m.find? (fun p => p.1 = s.environments[i].name)
          = none := by
        rw [List.find?_eq_none]
        intro p hp
        simp [hnotin p hp]
      simp only [List.getElem_map, hfind]
    · rw [if_neg hall] at h
      cases h

/-- Closed instances of `updateSortOrder_atomic`: a map naming the missing
environment `B` makes the whole call fail, and a successful update leaves
an unnamed environment untouched. -/
theorem updateSortOrder_atomic_witness :
    updateSortOrder ⟨[⟨"A", false, 0, "t"⟩], []⟩ [("A", 5), ("B", 1)] =
      .error .NotFound ∧
    (⟨[⟨"A", false, 5, "t"⟩, ⟨"C", false, 2, "t"⟩], []⟩ : Store).environments.get
        ⟨1, by decide⟩ =
      (⟨[⟨"A", false, 0, "t"⟩, ⟨"C", false, 2, "t"⟩], []⟩ : Store).environments.get
        ⟨1, by decide⟩ :=
  ⟨(updateSortOrder_atomic ⟨[⟨"A", false, 0, "t"⟩], []⟩ [("A", 5), ("B", 1)]).1
      ⟨("B", 1), by decide, by decide⟩,
    ((updateSortOrder_atomic ⟨[⟨"A", false, 0, "t"⟩, ⟨"C", false, 2, "t"⟩], []⟩
        [("A", 5)]).2
      ⟨[⟨"A", false, 5, "t"⟩, ⟨"C", false, 2, "t"⟩], []⟩ rfl).2.2
      1 (by decide) (by decide) (by decide)⟩

/-- Claim C7: `deleteEnvironment` fails with `NotFound` when the name is
absent, and fails with `Conflict` when the environment is referenced by a
project link or is the last remaining enabled environment; in the
Conflict case no new state is produced and the environment is still
retrievable via `getEnv`. -/
theorem deleteEnvironment_spec (s : Store) (name : String) :
    (findEnv s name = none → deleteEnvironment s name = .error .NotFound) ∧
    (∀ e, findEnv s name = some e →
      ((∃ l ∈ s.projectLinks, l.environmentName = name) ∨
       (e.enabled = true ∧
         ∀ x ∈ s.environments, x.name ≠ name → x.enabled = false)) →
      deleteEnvironment s name = .error .Conflict ∧
        getEnv s name = .ok e) := by
  constructor
  · intro h
    simp [deleteEnvironment, h]
  · intro e he hcond
    refine ⟨?_, by simp [getEnv, he]⟩
    unfold deleteEnvironment
    rw [he]
    rcases hcond with ⟨l, hl, hln⟩ | ⟨hen, hlast⟩
    · have hany : s.projectLinks.any (fun l => l.environmentName = name)
          = true := by
        rw [List.any_eq_true]
        exact ⟨l, hl, by simp [hln]⟩
      simp [hany]
    · by_cases hany : s.projectLinks.any (fun l => l.environmentName = name)
          = true
      · simp [hany]
      · have hall : s.environments.all (fun x =>
            x.name = name || !x.enabled) = true := by
          rw [List.all_eq_true]
          intro x hx
          by_cases hxn : x.name = name
          · simp [hxn]
          · simp [hxn, hlast x hx hxn]
        simp [hany, hall, hen]

/-- Closed instances of `deleteEnvironment_spec`: deleting a missing name
fails with NotFound, and deleting an environment referenced by a project
link fails with Conflict while the environment stays retrievable. -/
theorem deleteEnvironment_spec_witness :
    deleteEnvironment ⟨[], []⟩ "ghost" = .error .NotFound ∧
    (deleteEnvironment ⟨[⟨"prod", true, 0, "production"⟩],
        [⟨"p1", "prod", true⟩]⟩ "prod" = .error .Conflict ∧
      getEnv ⟨[⟨"prod", true, 0, "production"⟩], [⟨"p1", "prod", true⟩]⟩
        "prod" = .ok ⟨"prod", true, 0, "production"⟩) :=
  ⟨(deleteEnvironment_spec ⟨[], []⟩ "ghost").1 rfl,
    (deleteEnvironment_spec ⟨[⟨"prod", true, 0, "production"⟩],
        [⟨"p1", "prod", true⟩]⟩ "prod").2 ⟨"prod", true, 0, "production"⟩ rfl
      (Or.inl ⟨⟨"p1", "prod", true⟩, by decide, rfl⟩)⟩

end Unleash

namespace Unleash

theorem envLe_antisymm_names {a b : Environment}
    (h1 : envLe a b) (h2 : envLe b a) : a.name = b.name := by
  rcases h1 with h1 | ⟨hs1, hn1⟩ <;> rcases h2 with h2 | ⟨hs2, hn2⟩
  · omega
  · omega
  · omega
  · exact le_antisymm hn1 hn2

theorem sorted_perm_eq_of_nodup_names :
    ∀ l₁ l₂ : List Environment, l₁.Perm l₂ → l₁.Sorted envLe →
      l₂.Sorted envLe → (l₁.map Environment.name).Nodup → l₁ = l₂ := by
  intro l₁
  induction l₁ with
  | nil =>
    intro l₂ hp _ _ _
    exact hp.nil_eq
  | cons a t IH =>
    intro l₂ hp hs₁ hs₂ hn
    cases l₂ with
    | nil => exact absurd hp.symm.nil_eq (by simp)
    | cons b t₂ =>
      have hab : a = b := by
        by_contra hne
        have ha2 : a ∈ b :: t₂ := hp.subset (List.mem_cons_self a t)
        have hb1 : b ∈ a :: t := hp.symm.subset (List.mem_cons_self b t₂)
        have hat2 : a ∈ t₂ := by
          rcases List.mem_cons.mp ha2 with h | h
          · exact absurd h hne
          · exact h
        have hbt : b ∈ t := by
          rcases List.mem_cons.mp hb1 with h | h
          · exact absurd h.symm hne
          · exact h
        have h1 : envLe a b := (List.sorted_cons.mp hs₁).1 b hbt
        have h2 : envLe b a := (List.sorted_cons.mp hs₂).1 a hat2
        have hname : a.name = b.name := envLe_antisymm_names h1 h2
        have hmem : a.name ∈ t.map Environment.name :=
          List.mem_map.mpr ⟨b, hbt, hname.symm⟩
        rw [List.map_cons] at hn
        exact (List.nodup_cons.mp hn).1 hmem
      subst hab
      have hp' : t.Perm t₂ := hp.cons_inv
      have ht : t = t₂ := by
        rw [List.map_cons] at hn
        exact IH t₂ hp' (List.sorted_cons.mp hs₁).2 (List.sorted_cons.mp hs₂).2
          (List.nodup_cons.mp hn).2
      rw [ht]

/-- Claim C2: `getAll` returns all environments sorted by `sortOrder`
ascending with ties broken by `name` ascending, and — when environment
names are unique, as the spec's data model requires — the result is the
same for every insertion order (any permutation of the stored rows). -/
theorem getAll_spec (s s' : Store)
    (hn : (s.environments.map Environment.name).Nodup)
    (hp : s.environments.Perm s'.environments) :
    (getAll s).Sorted envLe ∧ (getAll s).Perm s.environments ∧
      getAll s = getAll s' := by
  have hsorted : (getAll s).Sorted envLe :=
    List.sorted_insertionSort envLe s.environments
  have hperm : (getAll s).Perm s.environments :=
    List.perm_insertionSort envLe s.environments
  refine ⟨hsorted, hperm, ?_⟩
  apply sorted_perm_eq_of_nodup_names
  · exact hperm.trans
      (hp.trans (List.perm_insertionSort envLe s'.environments).symm)
  · exact hsorted
  · exact List.sorted_insertionSort envLe s'.environments
  · exact ((hperm.map Environment.name).symm.nodup hn)

/-- Closed instance of `getAll_spec`: two insertion orders of the same
two rows (tied `sortOrder`, distinct names) produce the same sorted
listing. -/
theorem getAll_spec_witness :
    (getAll ⟨[⟨"b", false, 0, "t"⟩, ⟨"a", false, 0, "t"⟩], []⟩).Sorted envLe ∧
    (getAll ⟨[⟨"b", false, 0, "t"⟩, ⟨"a", false, 0, "t"⟩], []⟩).Perm
      [⟨"b", false, 0, "t"⟩, ⟨"a", false, 0, "t"⟩] ∧
    getAll ⟨[⟨"b", false, 0, "t"⟩, ⟨"a", false, 0, "t"⟩], []⟩ =
      getAll ⟨[⟨"a", false, 0, "t"⟩, ⟨"b", false, 0, "t"⟩], []⟩ :=
  getAll_spec ⟨[⟨"b", false, 0, "t"⟩, ⟨"a", false, 0, "t"⟩], []⟩
    ⟨[⟨"a", false, 0, "t"⟩, ⟨"b", false, 0, "t"⟩], []⟩ (by decide) (by decide)

end Unleash

namespace Unleash

/-- Claim C3: for a project and an environment currently listed for it,
globally disabling that environment removes it from
`getProjectEnvironments` (read-time cascade), and a subsequent global
re-enable restores it without any re-linking — the project link rows are
never touched by the toggles. -/
theorem toggleEnvironment_cascade (s : Store) (pid ename : String)
    (s₁ s₂ : Store)
    (h1 : toggleEnvironment s ename false = .ok s₁)
    (h2 : toggleEnvironment s₁ ename true = .ok s₂)
    (hmem : ∃ e ∈ getProjectEnvironments s pid, e.name = ename) :
    (∀ e ∈ getProjectEnvironments s₁ pid, e.name ≠ ename) ∧
    (∃ e ∈ getProjectEnvironments s₂ pid, e.name = ename) := by
  have hs₁def : s₁ = { s with environments := s.environments.map (fun e =>
      if e.name = ename then { e with enabled := false } else e) } := by
    rcases Bool.eq_false_or_eq_true (envExists s ename) with hx | hx
    · simp [toggleEnvironment, hx] at h1
      exact h1.symm
    · simp [toggleEnvironment, hx] at h1
  have hs₂def : s₂ = { s₁ with environments := s₁.environments.map (fun e =>
      if e.name = ename then { e with enabled := true } else e) } := by
    rcases Bool.eq_false_or_eq_true (envExists s₁ ename) with hx | hx
    · simp [toggleEnvironment, hx] at h2
      exact h2.symm
    · simp [toggleEnvironment, hx] at h2
  constructor
  · intro e he hname
    rw [getProjectEnvironments] at he
    have hf := List.mem_filter.mp he
    have hmem₁ : e ∈ s₁.environments :=
      ((List.perm_insertionSort envLe s₁.environments).mem_iff).mp hf.1
    have hcond := hf.2
    rw [Bool.and_eq_true] at hcond
    rw [hs₁def] at hmem₁
    simp only [List.mem_map] at hmem₁
    obtain ⟨e₀, he₀, hfe⟩ := hmem₁
    by_cases h0 : e₀.name = ename
    · rw [if_pos h0] at hfe
      rw [← hfe] at hcond
      simp at hcond
    · rw [if_neg h0] at hfe
      rw [← hfe] at hname
      exact h0 hname
  · obtain ⟨e₀, he₀, hename⟩ := hmem
    rw [getProjectEnvironments] at he₀
    have hf := List.mem_filter.mp he₀
    have hmem₀ : e₀ ∈ s.environments :=
      ((List.perm_insertionSort envLe s.environments).mem_iff).mp hf.1
    have hcond := hf.2
    rw [Bool.and_eq_true] at hcond
    have hpl : s₂.projectLinks = s.projectLinks := by
      rw [hs₂def, hs₁def]
    have h1mem : (if e₀.name = ename then { e₀ with enabled := false }
        else e₀) ∈ s₁.environments := by
      rw [hs₁def]
      exact List.mem_map_of_mem _ hmem₀
    have h2mem : { e₀ with enabled := true } ∈ s₂.environments := by
      rw [hs₂def]
      have := List.mem_map_of_mem (fun e =>
        if e.name = ename then { e with enabled := true } else e) h1mem
      rw [if_pos hename] at this
      simpa [hename] using this
    refine ⟨{ e₀ with enabled := true }, ?_, hename⟩
    rw [getProjectEnvironments]
    apply List.mem_filter.mpr
    refine ⟨((List.perm_insertionSort envLe s₂.environments).mem_iff).mpr
      h2mem, ?_⟩
    rw [hpl]
    simpa using hcond.2

/-- Closed instance of `toggleEnvironment_cascade` on the spec's example:
`staging` linked to `p1`, globally disabled then re-enabled. -/
theorem toggleEnvironment_cascade_witness :
    (∀ e ∈ getProjectEnvironments ⟨[⟨"staging", false, 0, "development"⟩],
        [⟨"p1", "staging", true⟩]⟩ "p1", e.name ≠ "staging") ∧
    (∃ e ∈ getProjectEnvironments ⟨[⟨"staging", true, 0, "development"⟩],
        [⟨"p1", "staging", true⟩]⟩ "p1", e.name = "staging") :=
  toggleEnvironment_cascade
    ⟨[⟨"staging", true, 0, "development"⟩], [⟨"p1", "staging", true⟩]⟩
    "p1" "staging"
    ⟨[⟨"staging", false, 0, "development"⟩], [⟨"p1", "staging", true⟩]⟩
    ⟨[⟨"staging", true, 0, "development"⟩], [⟨"p1", "staging", true⟩]⟩
    rfl rfl (by decide)

end Unleash

namespace UiFlag

/-- Claim C9: `useUiFlag` returns `true` for the flag name `EEA` whatever
the config holds; for any other flag it returns the configured boolean
when one is present and `false` when `uiConfig`, its `flags` object, or
the key is absent — its return type is `Bool`, so it is never
undefined. -/
theorem useUiFlag_spec (cfg : Option UiConfig) (flag : String) :
    useUiFlag cfg "EEA" = true ∧
    (flag ≠ "EEA" →
      (∀ v, (cfg.bind (fun c => c.flags)).bind (fun fs => fs.lookup flag) =
          some v → useUiFlag cfg flag = v) ∧
      ((cfg.bind (fun c => c.flags)).bind (fun fs => fs.lookup flag) =
          none → useUiFlag cfg flag = false)) := by
  refine ⟨by simp [useUiFlag], ?_⟩
  intro hne
  constructor
  · intro v hv
    simp [useUiFlag, hne, orFalse, hv]
  · intro hv
    simp [useUiFlag, hne, orFalse, hv]

/-- Closed instances of `useUiFlag_spec`: a configured flag is returned
as configured, an absent config yields `false`, and `EEA` is `true` even
with no config at all. -/
theorem useUiFlag_spec_witness :
    useUiFlag (some ⟨some [("flagA", true)]⟩) "flagA" = true ∧
    useUiFlag none "flagA" = false ∧
    useUiFlag none "EEA" = true :=
  ⟨((useUiFlag_spec (some ⟨some [("flagA", true)]⟩) "flagA").2
      (by decide)).1 true rfl,
    ((useUiFlag_spec none "flagA").2 (by decide)).2 rfl,
    (useUiFlag_spec none "flagA").1⟩

end UiFlag

namespace MilestoneList

/-- Claim C10: `milestoneNameChanged` keeps the list length, leaves every
position other than `index` untouched, and at `index` (when in range)
replaces only the `name` field, keeping every other field of that
milestone. -/
theorem milestoneNameChanged_spec (prev : List Milestone) (index : Nat)
    (name : String) :
    (milestoneNameChanged index name prev).length = prev.length ∧
    (∀ i, i ≠ index →
      (milestoneNameChanged index name prev)[i]? = prev[i]?) ∧
    (∀ (h : index < prev.length),
      (milestoneNameChanged index name prev)[index]? =
        some { prev[index] with name := name }) := by
  refine ⟨by simp [milestoneNameChanged], ?_, ?_⟩
  · intro i hi
    rw [milestoneNameChanged, List.getElem?_mapIdx]
    cases hp : prev[i]? with
    | none => rfl
    | some m => simp [hi]
  · intro h
    rw [milestoneNameChanged, List.getElem?_mapIdx]
    simp [List.getElem?_eq_getElem h]

/-- Closed instances of `milestoneNameChanged_spec` on a two-milestone
list: position 1 keeps its row, position 0 gets only its name
replaced. -/
theorem milestoneNameChanged_spec_witness :
    (milestoneNameChanged 0 "renamed"
        [⟨"Milestone 1", 0, []⟩, ⟨"Milestone 2", 1, ["s1"]⟩])[1]? =
      [(⟨"Milestone 1", 0, []⟩ : Milestone), ⟨"Milestone 2", 1, ["s1"]⟩][1]? ∧
    (milestoneNameChanged 0 "renamed"
        [⟨"Milestone 1", 0, []⟩, ⟨"Milestone 2", 1, ["s1"]⟩])[0]? =
      some ⟨"renamed", 0, []⟩ :=
  ⟨(milestoneNameChanged_spec
      [⟨"Milestone 1", 0, []⟩, ⟨"Milestone 2", 1, ["s1"]⟩] 0 "renamed").2.1
      1 (by decide),
    (milestoneNameChanged_spec
      [⟨"Milestone 1", 0, []⟩, ⟨"Milestone 2", 1, ["s1"]⟩] 0 "renamed").2.2
      (by decide)⟩

end MilestoneList
